import Mathlib

/-!
# Verification of the `rtic-syntax` parsing and validation front-end

A shallow embedding, in Lean 4, of the parsing/semantic-validation engine of
the repository (files `src/ast.rs`, `src/parse/app.rs`,
`src/parse/hardware_task.rs`, `src/parse/util.rs`), together with theorems
settling the specification's claims about it.

Syntax nodes produced by the host-language parser (`syn`) are modelled as
plain inductive data: identifiers carry their textual name and an abstract
source span (a `Nat`); identifier comparison, as in `syn`, is by name only.
Fallible Rust functions returning `parse::Result` become `Except ParseError`;
the top-level item walk, which can also abort via `panic!`/`unimplemented!`,
is given a three-valued outcome type (`POutcome`) so that panics are
observable. Functions whose source lives outside the four files above are
modelled from the specification; each such definition says so in its doc
comment.
-/

/-- A `proc_macro2`/`syn` identifier: its text plus an abstract source span.
`syn` compares identifiers by text only, so every set/map membership test in
the embedding compares the `name` fields. -/
structure Ident where
  name : String
  span : Nat

/-- A structured parse failure: a source span and a human-readable message
(the payload of `syn::parse::Error::new(span, msg)`). -/
structure ParseError where
  span : Nat
  msg : String

/-- Outcome of code that can return a value, return a structured parse error,
or abort the process (`panic!` / `unimplemented!`). -/
inductive POutcome (α : Type) where
  | ok (a : α)
  | err (e : ParseError)
  | panicked (msg : String)

mutual

/-- The fragment of `syn::Type` the validators inspect. -/
inductive SynType where
  | never : SynType
  | tuple (elems : List SynType) : SynType
  | path (qselfSome : Bool) (p : SynPath) : SynType
  | implTrait (bounds : List TypeParamBound) : SynType
  | otherTy (tag : Nat) : SynType

/-- `syn::TypeParamBound`: a trait bound (with its optional paren token,
`?` modifier and `for<..>` lifetimes, each modelled by presence) or a
lifetime bound. -/
inductive TypeParamBound where
  | traitBound (parenTokenSome : Bool) (modifierMaybe : Bool)
      (lifetimesSome : Bool) (path : SynPath) : TypeParamBound
  | lifetimeBound (tag : Nat) : TypeParamBound

/-- `syn::Path`: optional leading `::` plus segments. -/
inductive SynPath where
  | mk (leading_colon : Bool) (segments : List PathSeg) : SynPath

/-- `syn::PathSegment`: an identifier plus its path arguments. -/
inductive PathSeg where
  | mk (ident : Ident) (arguments : PathArgs) : PathSeg

/-- `syn::PathArguments`. -/
inductive PathArgs where
  | noArgs : PathArgs
  | angleBracketed (args : List GenericArgument) : PathArgs
  | parenthesized : PathArgs

/-- The fragment of `syn::GenericArgument` inspected: associated-type
bindings `Ident = Type`, and anything else. -/
inductive GenericArgument where
  | binding (ident : Ident) (ty : SynType) : GenericArgument
  | otherArg (tag : Nat) : GenericArgument

end

/-- The leading-colon flag of a path. -/
def SynPath.leadingColon : SynPath → Bool
  | .mk lc _ => lc

/-- The segments of a path. -/
def SynPath.segments : SynPath → List PathSeg
  | .mk _ segs => segs

/-- The identifier of a path segment. -/
def PathSeg.ident : PathSeg → Ident
  | .mk i _ => i

/-- The arguments of a path segment. -/
def PathSeg.arguments : PathSeg → PathArgs
  | .mk _ a => a

/-- Whether path arguments are `PathArguments::None`. -/
def PathArgs.isNone : PathArgs → Bool
  | .noArgs => true
  | _ => false

/-- Abstract span of a whole path (the span of its first segment's
identifier; `0` for an empty path). Spans are abstract tags in this
embedding, so any deterministic choice is adequate. -/
def SynPath.spanOf : SynPath → Nat
  | .mk _ (s :: _) => s.ident.span
  | .mk _ [] => 0

/-- `syn::ReturnType`: either elided (`Default`) or `-> ty`. -/
inductive SynReturnType where
  | default : SynReturnType
  | type (ty : SynType) : SynReturnType

/-- Pre-parsed content of one attribute's token stream. The raw tokens of an
attribute are opaque to the item classifier; the entity/argument parsers give
them structure. Modelling them as already-shaped data abstracts the token
grammar `key = value, ..` handled by the black-box `syn` tokenizer. -/
inductive AttrPayload where
  | emptyTokens : AttrPayload
  | taskTokens (binds : Option Ident) (priority : Option Nat)
      (capacity : Option Nat) : AttrPayload
  | parenExprTokens (exprTag : Nat) : AttrPayload
  | otherTokens (tag : Nat) : AttrPayload

/-- `syn::Attribute`: style (outer or inner), path, token payload, and the
attribute's own span. -/
structure Attr where
  styleOuter : Bool
  path : SynPath
  payload : AttrPayload
  span : Nat

instance : Inhabited Attr :=
  ⟨{ styleOuter := false, path := .mk false [], payload := .otherTokens 0, span := 0 }⟩

/-- A `static` item (`syn::ItemStatic`): attributes, identifier, presence of
`mut`, and opaque type/initializer payloads. -/
structure ItemStatic where
  attrs : List Attr
  ident : Ident
  mutabilitySome : Bool
  tyTag : Nat
  exprTag : Nat

/-- The fragment of `syn::Stmt` that `extract_locals` distinguishes: a
`static` item statement, or any other statement. -/
inductive SynStmt where
  | itemStatic (s : ItemStatic) : SynStmt
  | otherStmt (tag : Nat) : SynStmt

/-- `syn::FnArg`: a typed pattern, or a `self` receiver. The pattern itself is
opaque. -/
inductive FnArg where
  | typed (patTag : Nat) (ty : SynType) : FnArg
  | receiver : FnArg

/-- `syn::Generics`, by what `check_fn_signature` inspects: the number of
generic parameters and the presence of a where-clause. -/
structure Generics where
  paramsCount : Nat
  whereClauseSome : Bool

/-- `syn::Signature`: the modifiers (modelled by presence), generics,
variadic flag, function name, inputs and return type. -/
structure Signature where
  constnessSome : Bool
  asyncnessSome : Bool
  abiSome : Bool
  unsafetySome : Bool
  generics : Generics
  variadicSome : Bool
  ident : Ident
  inputs : List FnArg
  output : SynReturnType

/-- `syn::ItemFn`: visibility (modelled by whether it is `Inherited`),
attributes, signature and body statements. -/
structure ItemFn where
  visInherited : Bool
  attrs : List Attr
  sig : Signature
  stmts : List SynStmt

/-! ## `src/parse/util.rs` -/

/-- `util::attr_eq`: the attribute is an outer attribute whose path is a
single argument-free segment with the given name. -/
def attr_eq (attr : Attr) (name : String) : Bool :=
  attr.styleOuter &&
    match attr.path.segments with
    | [seg] => seg.arguments.isNone && seg.ident.name == name
    | _ => false

/-- `util::check_fn_signature`: inherited visibility, no `const`, no `async`,
no ABI, no `unsafe`, no generic parameters, no where-clause, not variadic. -/
def check_fn_signature (item : ItemFn) : Bool :=
  item.visInherited
    && !item.sig.constnessSome
    && !item.sig.asyncnessSome
    && !item.sig.abiSome
    && !item.sig.unsafetySome
    && item.sig.generics.paramsCount == 0
    && !item.sig.generics.whereClauseSome
    && !item.sig.variadicSome

/-- `util::extract_cfgs`: split a list of attributes into the `#[cfg(..)]`
ones and the rest, preserving order. -/
def extract_cfgs : List Attr → List Attr × List Attr
  | [] => ([], [])
  | attr :: rest =>
    let (cfgs, not_cfgs) := extract_cfgs rest
    if attr_eq attr "cfg" then (attr :: cfgs, not_cfgs)
    else (cfgs, attr :: not_cfgs)

/-- The loop body of `util::extract_locals`, with the `seen` name set and the
accumulated locals made explicit. On the first statement that is not a
`static mut` item the scan stops and that statement heads the returned
body. -/
def extract_locals_go (seen : List String) (locals : List ItemStatic) :
    List SynStmt → Except ParseError (List ItemStatic × List SynStmt)
  | [] => .ok (locals, [])
  | stmt :: rest =>
    match stmt with
    | .itemStatic s =>
      if s.mutabilitySome then
        if seen.contains s.ident.name then
          .error ⟨s.ident.span, "this local `static` appears more than once"⟩
        else
          extract_locals_go (s.ident.name :: seen) (locals ++ [s]) rest
      else .ok (locals, stmt :: rest)
    | .otherStmt t => .ok (locals, SynStmt.otherStmt t :: rest)

/-- `util::extract_locals`: consume the longest leading run of `static mut`
items (rejecting a repeated name) as locals; everything from the first other
statement on is the body. -/
def extract_locals (stmts : List SynStmt) :
    Except ParseError (List ItemStatic × List SynStmt) :=
  extract_locals_go [] [] stmts

/-- `util::extract_shared`: find a `#[shared]` attribute; with one core its
presence is an error, otherwise it is removed and reported present. -/
def extract_shared (attrs : List Attr) (cores : Nat) :
    Except ParseError (Bool × List Attr) :=
  match attrs.findIdx? (fun a => attr_eq a "shared") with
  | some pos =>
    if cores == 1 then
      .error ⟨(attrs.getD pos default).span,
        "`#[shared]` can only be used in multi-core mode"⟩
    else .ok (true, attrs.eraseIdx pos)
  | none => .ok (false, attrs)

/-- A `syn::LitInt`: its numeric value, whether it carries a suffix, and its
span. `base10_parse::<u8>` succeeds exactly when the value fits in `u8`. -/
structure LitIntModel where
  value : Nat
  suffixed : Bool
  span : Nat

/-- The range-error message of `util::parse_core`. -/
def coreRangeMsg (cores : Nat) : String :=
  "core number must be in the range 0.." ++ toString cores

/-- `util::parse_core`: an unsuffixed integer that fits in `u8` and is below
the total core count passes; anything else is an error. -/
def parse_core (lit : LitIntModel) (cores : Nat) : Except ParseError Nat :=
  if lit.suffixed then
    .error ⟨lit.span, "this integer must be unsuffixed"⟩
  else if lit.value < 256 && lit.value < cores then .ok lit.value
  else .error ⟨lit.span, coreRangeMsg cores⟩

/-- Resource access (`ast::Access`): `Exclusive` for `x`, `Shared` for `&x`. -/
inductive Access where
  | Exclusive : Access
  | Shared : Access

/-- The fragment of `syn::Expr` that `parse_resources` distinguishes: a path
expression, a reference expression, or anything else. -/
inductive RExpr where
  | pathE (span : Nat) (p : SynPath) : RExpr
  | referenceE (span : Nat) (mutabilitySome : Bool) (inner : RExpr) : RExpr
  | otherE (span : Nat) : RExpr

/-- The span of an expression node. -/
def RExpr.spanOf : RExpr → Nat
  | .pathE s _ => s
  | .referenceE s _ _ => s
  | .otherE s => s

/-- Membership test of an insertion-ordered map keyed by `syn` identifiers:
comparison is by name, as in `syn`'s `Ident` equality. -/
def mapContains {α : Type} (m : List (Ident × α)) (i : Ident) : Bool :=
  m.any (fun p => p.1.name == i.name)

/-- The element loop of `util::parse_resources` over the bracketed list's
comma-separated expressions. -/
def parse_resources_go (resources : List (Ident × Access)) :
    List RExpr → Except ParseError (List (Ident × Access))
  | [] => .ok resources
  | e :: rest =>
    let proj : Option (Access × SynPath) :=
      match e with
      | .pathE _ p => some (Access.Exclusive, p)
      | .referenceE _ false (.pathE _ p) => some (Access.Shared, p)
      | _ => none
    match proj with
    | none => .error ⟨e.spanOf, "identifier appears more than once in list"⟩
    | some (access, path) =>
      match path.leadingColon, path.segments with
      | false, [seg] =>
        if !seg.arguments.isNone then
          .error ⟨path.spanOf, "resource must be an identifier, not a path"⟩
        else if mapContains resources seg.ident then
          .error ⟨seg.ident.span, "resource appears more than once in list"⟩
        else parse_resources_go (resources ++ [(seg.ident, access)]) rest
      | _, _ =>
        .error ⟨path.spanOf, "resource must be an identifier, not a path"⟩

/-- `util::parse_resources`: a bracketed comma-separated list where a bare
identifier gets `Exclusive` access and a non-mutable reference to an
identifier gets `Shared` access; non-identifier paths and repeats are
rejected. -/
def parse_resources (es : List RExpr) : Except ParseError (List (Ident × Access)) :=
  parse_resources_go [] es

/-- `util::type_is_path`: the type is a path type without `qself` whose
segment identifiers are exactly the given strings. -/
def type_is_path (ty : SynType) (segments : List String) : Bool :=
  match ty with
  | .path qselfSome p =>
    !qselfSome && p.segments.length == segments.length &&
      (List.zip p.segments segments).all (fun pr => pr.1.ident.name == pr.2)
  | _ => false

/-- The trailing-inputs collection of `util::parse_inputs`: every remaining
argument must be a typed one; the first receiver argument is returned as the
error value. -/
def collectTyped : List FnArg → Except FnArg (List (Nat × SynType))
  | [] => .ok []
  | .typed p t :: rest =>
    match collectTyped rest with
    | .ok l => .ok ((p, t) :: l)
    | .error e => .error e
  | .receiver :: _ => .error .receiver

/-- `util::parse_inputs`: the first input must be a typed argument whose type
is the two-segment path `name::Context`; its pattern and the remaining typed
inputs are returned. -/
def parse_inputs (inputs : List FnArg) (name : String) :
    Option (Nat × Except FnArg (List (Nat × SynType))) :=
  match inputs with
  | FnArg.typed pat ty :: rest =>
    if type_is_path ty [name, "Context"] then some (pat, collectTyped rest)
    else none
  | _ => none

/-- `util::type_is_bottom`: the declared return type is the never type `!`. -/
def type_is_bottom : SynReturnType → Bool
  | .type .never => true
  | _ => false

/-- `util::type_is_late_resources`: elided or empty-tuple return means no
late resources, the exact path `name::LateResources` means late resources,
anything else is an error. -/
def type_is_late_resources (ty : SynReturnType) (name : String) :
    Except Unit Bool :=
  match ty with
  | .default => .ok false
  | .type t =>
    match t with
    | .tuple elems => if elems.isEmpty then .ok false else .error ()
    | .path q p =>
      if type_is_path (.path q p) [name, "LateResources"] then .ok true
      else .error ()
    | _ => .error ()

/-- `util::path_is_generator`: a single-segment path `Generator` whose
angle-bracketed arguments are exactly the bindings `Yield = ()` and
`Return = !`, in that order. -/
def path_is_generator (p : SynPath) : Bool :=
  match p.segments with
  | [PathSeg.mk ident args] =>
    ident.name == "Generator" &&
      (match args with
       | .angleBracketed g =>
         match g with
         | [g0, g1] =>
           (match g0 with
            | .binding b bty =>
              b.name == "Yield" &&
                (match bty with
                 | .tuple elems => elems.isEmpty
                 | _ => false)
            | _ => false) &&
           (match g1 with
            | .binding b bty =>
              b.name == "Return" &&
                (match bty with
                 | .never => true
                 | _ => false)
            | _ => false)
         | _ => false
       | _ => false)
  | _ => false

/-- `util::type_is_unit`: elided return type or the empty tuple. -/
def type_is_unit : SynReturnType → Bool
  | .default => true
  | .type (.tuple elems) => elems.isEmpty
  | .type _ => false

/-- `util::type_is_generator`: an `impl Trait` return type with exactly one
bound, a plain (unparenthesized, unmodified, lifetime-free) trait bound whose
path satisfies `path_is_generator`. -/
def type_is_generator : SynReturnType → Bool
  | .type (.implTrait bounds) =>
    match bounds with
    | [TypeParamBound.traitBound paren modif lts p] =>
      path_is_generator p && !paren && !modif && !lts
    | _ => false
  | _ => false

/-! ## Argument records and entity models (`src/ast.rs`) -/

/-- A custom `#[app]` argument value (`ast::CustomArg`): a path (`Path`), a
boolean (`boolVal`, the source's `Bool` variant, renamed to avoid the builtin
type), or the base-10 digits of an unsuffixed integer (`UInt`). -/
inductive CustomArg where
  | Path (p : SynPath) : CustomArg
  | boolVal (b : Bool) : CustomArg
  | UInt (digits : String) : CustomArg

/-- The `#[app]` attribute arguments as `AppArgs::parse` builds them: the
insertion-ordered map of custom `key = value` arguments. -/
structure AppArgsModel where
  custom : List (Ident × CustomArg)

/-- Hardware task metadata (`ast::HardwareTaskArgs`): the bound interrupt and
the priority. -/
structure HardwareTaskArgs where
  binds : Ident
  priority : Nat

/-- Software task metadata (`ast::SoftwareTaskArgs`): capacity and priority. -/
structure SoftwareTaskArgs where
  capacity : Nat
  priority : Nat

/-- A task-local `static mut` (`ast::Local`): split attributes plus opaque
type and initializer payloads. -/
structure LocalModel where
  attrs : List Attr
  cfgs : List Attr
  tyTag : Nat
  exprTag : Nat

/-- A late resource (`ast::LateResource`): split attributes plus the opaque
type payload. -/
structure LateResourceModel where
  cfgs : List Attr
  attrs : List Attr
  tyTag : Nat

/-- An early resource (`ast::Resource`): a late-resource record plus the
opaque initializer expression from the field's `#[init(..)]` attribute. -/
structure ResourceModel where
  late : LateResourceModel
  exprTag : Nat

/-- Init/idle argument records; their fields are not inspected by any claim,
so only their presence is modelled. -/
structure InitArgsModel where
  tag : Nat

/-- Idle argument record. -/
structure IdleArgsModel where
  tag : Nat

/-- The parsed `#[init]` entity (`ast::Init`), by the fields the claims
observe. -/
structure InitModel where
  args : InitArgsModel
  name : Ident
  returns_late_resources : Bool
  context : Nat
  locals : List (String × LocalModel)
  stmts : List SynStmt

/-- The parsed `#[idle]` entity (`ast::Idle`). -/
structure IdleModel where
  args : IdleArgsModel
  name : Ident
  context : Nat
  locals : List (String × LocalModel)
  stmts : List SynStmt

/-- The parsed hardware task (`ast::HardwareTask`). -/
structure HardwareTaskModel where
  args : HardwareTaskArgs
  is_generator : Bool
  attrs : List Attr
  context : Nat
  locals : List (String × LocalModel)
  stmts : List SynStmt

/-- The parsed software task (`ast::SoftwareTask`). -/
structure SoftwareTaskModel where
  args : SoftwareTaskArgs
  attrs : List Attr
  context : Nat
  inputs : List (Nat × SynType)
  locals : List (String × LocalModel)
  stmts : List SynStmt

/-- An extern-interrupt pool entry (`ast::ExternInterrupt`): the attributes
forwarded onto the generated handler. -/
structure ExternInterruptModel where
  attrs : List Attr

/-- A named struct field (`syn::Field` with `ident` present): attributes,
identifier and the opaque type payload. -/
structure FieldModel where
  attrs : List Attr
  ident : Ident
  tyTag : Nat

/-- `syn::Fields` of a struct. -/
inductive SynFields where
  | named (fields : List FieldModel) : SynFields
  | unnamed (n : Nat) : SynFields
  | unitFields : SynFields

/-- A foreign-mod item: a foreign function (attributes and name), or any
other foreign item. -/
inductive ForeignItemM where
  | fn (attrs : List Attr) (ident : Ident) : ForeignItemM
  | otherForeign (tag : Nat) : ForeignItemM

/-- The fragment of `syn::Item` the item classifier distinguishes. -/
inductive SynItem where
  | fn (f : ItemFn) : SynItem
  | struct_ (attrs : List Attr) (visInherited : Bool) (ident : Ident)
      (fields : SynFields) : SynItem
  | foreignMod (items : List ForeignItemM) : SynItem
  | use_ (tag : Nat) : SynItem
  | otherItem (tag : Nat) : SynItem

/-- Parser settings (`Settings`): whether foreign interrupt declarations are
recognized as extern-interrupt pool entries. -/
structure Settings where
  parse_extern_interrupt : Bool

/-! ## Entity parsers modelled from the specification

The repository's `src/` tree holds only `ast.rs`, `parse/app.rs`,
`parse/hardware_task.rs` and `parse/util.rs`; the entity parsers below are
called by `App::parse` but their sources are not under `src/`, so they are
modelled from the specification (sections 4.2 and 4.4), built on the `src/`
validators wherever the specification names them. -/

/-- Modelled from the spec: `Local::parse` (not under `src/`) converts the
extracted `static mut` items into the task's locals table keyed by
identifier, splitting out `#[cfg]` attributes; a repeated identifier is a
redefinition error (spec section 3, invariant 6). -/
def Local_parse_go (acc : List (String × LocalModel)) :
    List ItemStatic → Except ParseError (List (String × LocalModel))
  | [] => .ok acc
  | s :: rest =>
    if acc.any (fun p => p.1 == s.ident.name) then
      .error ⟨s.ident.span, "this local `static` appears more than once"⟩
    else
      let split := extract_cfgs s.attrs
      Local_parse_go
        (acc ++ [(s.ident.name,
          { attrs := split.2, cfgs := split.1,
            tyTag := s.tyTag, exprTag := s.exprTag })]) rest

/-- Modelled from the spec: `Local::parse`, entry point. -/
def Local_parse (locals : List ItemStatic) :
    Except ParseError (List (String × LocalModel)) :=
  Local_parse_go [] locals

/-- Modelled from the spec: `InitArgs::parse` (not under `src/`) decodes the
`#[init(..)]` attribute arguments; an empty argument list is the default
record, unrecognized argument shapes are rejected. -/
def InitArgs_parse (payload : AttrPayload) (_settings : Settings) :
    Except ParseError InitArgsModel :=
  match payload with
  | .emptyTokens => .ok { tag := 0 }
  | _ => .error ⟨0, "expected `#ident = ..`"⟩

/-- Modelled from the spec: `IdleArgs::parse` (not under `src/`). -/
def IdleArgs_parse (payload : AttrPayload) (_settings : Settings) :
    Except ParseError IdleArgsModel :=
  match payload with
  | .emptyTokens => .ok { tag := 0 }
  | _ => .error ⟨0, "expected `#ident = ..`"⟩

/-- Modelled from the spec: `Init::parse` (not under `src/`) validates the
function signature, the single `name::Context` parameter and the return type
(elided/unit, or exactly `name::LateResources`), then extracts the leading
`static mut` locals; the remaining statements are the body. Built on the
`src/` validators `check_fn_signature`, `type_is_late_resources`,
`parse_inputs` and `extract_locals`. -/
def Init_parse (args : InitArgsModel) (item : ItemFn) :
    Except ParseError InitModel :=
  if check_fn_signature item && item.sig.inputs.length == 1 then
    match type_is_late_resources item.sig.output item.sig.ident.name with
    | .error _ =>
      .error ⟨item.sig.ident.span,
        "`init` must have type signature `fn(init::Context)` or `fn(init::Context) -> init::LateResources`"⟩
    | .ok rlr =>
      match parse_inputs item.sig.inputs item.sig.ident.name with
      | some (context, .ok []) =>
        match extract_locals item.stmts with
        | .error e => .error e
        | .ok (locals, stmts) =>
          match Local_parse locals with
          | .error e => .error e
          | .ok lmap =>
            .ok { args := args, name := item.sig.ident,
                  returns_late_resources := rlr, context := context,
                  locals := lmap, stmts := stmts }
      | _ =>
        .error ⟨item.sig.ident.span,
          "`init` must have type signature `fn(init::Context)` or `fn(init::Context) -> init::LateResources`"⟩
  else
    .error ⟨item.sig.ident.span,
      "`init` must have type signature `fn(init::Context)` or `fn(init::Context) -> init::LateResources`"⟩

/-- Modelled from the spec: `Idle::parse` (not under `src/`) validates the
signature and the `name::Context` parameter, requires a never/unit return,
and extracts the leading locals. -/
def Idle_parse (args : IdleArgsModel) (item : ItemFn) :
    Except ParseError IdleModel :=
  if check_fn_signature item && item.sig.inputs.length == 1
      && (type_is_unit item.sig.output || type_is_bottom item.sig.output) then
    match parse_inputs item.sig.inputs item.sig.ident.name with
    | some (context, .ok []) =>
      match extract_locals item.stmts with
      | .error e => .error e
      | .ok (locals, stmts) =>
        match Local_parse locals with
        | .error e => .error e
        | .ok lmap =>
          .ok { args := args, name := item.sig.ident, context := context,
                locals := lmap, stmts := stmts }
    | _ =>
      .error ⟨item.sig.ident.span,
        "`idle` must have type signature `fn(idle::Context) -> !`"⟩
  else
    .error ⟨item.sig.ident.span,
      "`idle` must have type signature `fn(idle::Context) -> !`"⟩

/-- Modelled from the spec: `crate::parse::task_args` (not under `src/`)
decodes a `#[task(..)]` argument list; the presence of `binds` routes the
task to the hardware-task record (`Left`), its absence to the software-task
record (`Right`); `priority` defaults to 1 and `capacity` defaults to 1. -/
def task_args (payload : AttrPayload) (_settings : Settings) :
    Except ParseError (HardwareTaskArgs ⊕ SoftwareTaskArgs) :=
  match payload with
  | .emptyTokens => .ok (.inr { capacity := 1, priority := 1 })
  | .taskTokens binds priority capacity =>
    match binds with
    | some b => .ok (.inl { binds := b, priority := priority.getD 1 })
    | none =>
      .ok (.inr { capacity := capacity.getD 1, priority := priority.getD 1 })
  | _ => .error ⟨0, "expected `#ident = ..`"⟩

/-- The signature-error message of `HardwareTask::parse`. -/
def taskSigMsg (name : String) : String :=
  "this task handler must have type signature `fn(" ++ name ++ "::Context)`"

/-- `HardwareTask::parse` (`src/parse/hardware_task.rs`): the reserved names
`init`/`idle` are rejected first; then the signature must pass
`check_fn_signature`, take exactly the one `name::Context` parameter, and
return unit or a recognized generator bound; the leading `static mut` run
becomes the locals. -/
def HardwareTask_parse (args : HardwareTaskArgs) (item : ItemFn) :
    Except ParseError HardwareTaskModel :=
  if item.sig.ident.name == "init" || item.sig.ident.name == "idle" then
    .error ⟨item.sig.ident.span, "tasks cannot be named `init` or `idle`"⟩
  else if check_fn_signature item && item.sig.inputs.length == 1
      && (type_is_unit item.sig.output || type_is_generator item.sig.output) then
    match parse_inputs item.sig.inputs item.sig.ident.name with
    | some (context, .ok rest) =>
      if rest.isEmpty then
        match extract_locals item.stmts with
        | .error e => .error e
        | .ok (locals, stmts) =>
          match Local_parse locals with
          | .error e => .error e
          | .ok lmap =>
            .ok { args := args,
                  is_generator := type_is_generator item.sig.output,
                  attrs := item.attrs, context := context,
                  locals := lmap, stmts := stmts }
      else .error ⟨item.sig.ident.span, taskSigMsg item.sig.ident.name⟩
    | _ => .error ⟨item.sig.ident.span, taskSigMsg item.sig.ident.name⟩
  else .error ⟨item.sig.ident.span, taskSigMsg item.sig.ident.name⟩

/-- Modelled from the spec: `SoftwareTask::parse` (not under `src/`) mirrors
the hardware-task parser but keeps trailing typed parameters as the task's
inputs; the reserved names `init`/`idle` are rejected, the signature must be
valid with a leading `name::Context` parameter and a unit return. -/
def SoftwareTask_parse (args : SoftwareTaskArgs) (item : ItemFn) :
    Except ParseError SoftwareTaskModel :=
  if item.sig.ident.name == "init" || item.sig.ident.name == "idle" then
    .error ⟨item.sig.ident.span, "tasks cannot be named `init` or `idle`"⟩
  else if check_fn_signature item && type_is_unit item.sig.output then
    match parse_inputs item.sig.inputs item.sig.ident.name with
    | some (context, .ok rest) =>
      match extract_locals item.stmts with
      | .error e => .error e
      | .ok (locals, stmts) =>
        match Local_parse locals with
        | .error e => .error e
        | .ok lmap =>
          .ok { args := args, attrs := item.attrs, context := context,
                inputs := rest, locals := lmap, stmts := stmts }
    | _ => .error ⟨item.sig.ident.span, taskSigMsg item.sig.ident.name⟩
  else .error ⟨item.sig.ident.span, taskSigMsg item.sig.ident.name⟩

/-- Modelled from the spec: `ExternInterrupt::parse` (not under `src/`) turns
a foreign function declaration into a pool entry keyed by its name, carrying
its attributes. -/
def ExternInterrupt_parse (attrs : List Attr) (ident : Ident) :
    Except ParseError (Ident × ExternInterruptModel) :=
  .ok (ident, { attrs := attrs })

/-- Modelled from the spec: `LateResource::parse` (not under `src/`) turns a
named struct field into a late-resource record, splitting its `#[cfg]`
attributes from the rest. -/
def LateResource_parse (f : FieldModel) : Except ParseError LateResourceModel :=
  let split := extract_cfgs f.attrs
  .ok { cfgs := split.1, attrs := split.2, tyTag := f.tyTag }

/-- `syn::parse2::<ExprParen>` applied to an attribute's token payload: the
payload must be one parenthesized expression. -/
def parseExprParen : AttrPayload → Except ParseError Nat
  | .parenExprTokens e => .ok e
  | _ => .error ⟨0, "expected parentheses: (...)"⟩

/-! ## `src/parse/app.rs` -/

/-- One `key = value` item of the `#[app]` attribute's token stream, with the
value as the black-box token parser classifies it: a path, a boolean literal,
an integer literal (with its suffix presence and base-10 digits), or a
literal of any other kind. -/
inductive ArgValue where
  | pathV (p : SynPath) : ArgValue
  | boolV (b : Bool) : ArgValue
  | intV (suffixed : Bool) (digits : String) : ArgValue
  | otherLitV (tag : Nat) : ArgValue

/-- The loop of `AppArgs::parse` over the `key = value` items. -/
def AppArgs_parse_go (custom : List (Ident × CustomArg)) :
    List (Ident × ArgValue) → Except ParseError (List (Ident × CustomArg))
  | [] => .ok custom
  | (ident, v) :: rest =>
    if mapContains custom ident then
      .error ⟨ident.span, "argument appears more than once"⟩
    else
      match v with
      | .pathV p => AppArgs_parse_go (custom ++ [(ident, .Path p)]) rest
      | .boolV b => AppArgs_parse_go (custom ++ [(ident, .boolVal b)]) rest
      | .intV suffixed digits =>
        if suffixed then .error ⟨ident.span, "integer must be unsuffixed"⟩
        else AppArgs_parse_go (custom ++ [(ident, .UInt digits)]) rest
      | .otherLitV _ => .error ⟨ident.span, "argument has unexpected value"⟩

/-- `AppArgs::parse`: every `key = value` pair becomes a custom argument
keyed by identifier; a repeated key, a suffixed integer, and a literal that
is neither boolean nor integer are rejected. -/
def AppArgs_parse (args : List (Ident × ArgValue)) :
    Except ParseError AppArgsModel :=
  match AppArgs_parse_go [] args with
  | .ok custom => .ok { custom := custom }
  | .error e => .error e

/-- The recognized per-item attributes (`app::AppAttribute`). -/
inductive AppAttribute where
  | resources | initAttr | idleAttr | taskAttr | dispatch

/-- `app::check_attr`: classify one attribute by name. -/
def check_attr (attr : Attr) : Option AppAttribute :=
  if attr_eq attr "resources" then some .resources
  else if attr_eq attr "init" then some .initAttr
  else if attr_eq attr "idle" then some .idleAttr
  else if attr_eq attr "task" then some .taskAttr
  else if attr_eq attr "dispatch" then some .dispatch
  else none

/-- `app::parse_attr`: remove the first recognized attribute from the list
and return it with its kind; a second recognized attribute on the same item
hits the source's `unimplemented!()` and aborts the process; no recognized
attribute leaves the list unchanged. -/
def parse_attr (attrs : List Attr) :
    POutcome (Option (AppAttribute × Attr) × List Attr) :=
  match attrs.findIdx? (fun a => (check_attr a).isSome) with
  | none => .ok (none, attrs)
  | some i =>
    if (attrs.eraseIdx i).any (fun a => (check_attr a).isSome) then
      .panicked "not implemented"
    else
      match check_attr (attrs.getD i default) with
      | some k => .ok (some (k, attrs.getD i default), attrs.eraseIdx i)
      | none => .ok (none, attrs)

/-- The accumulator state of the `App::parse` item loop: every table being
built, plus the `seen_idents` and `bindings` name sets of the `check_ident`
and `check_binding` closures and the set of already-seen `#[resources]`
struct names. -/
structure ParseState where
  inits : List InitModel
  idles : List IdleModel
  late_resources : List (Ident × LateResourceModel)
  resources : List (Ident × ResourceModel)
  resource_struct : List String
  hardware_tasks : List (Ident × HardwareTaskModel)
  software_tasks : List (Ident × SoftwareTaskModel)
  user_imports : List Nat
  user_code : List SynItem
  extern_interrupts : List (Ident × ExternInterruptModel)
  seen_idents : List String
  bindings : List String

/-- The empty initial state of `App::parse`. -/
def initialState : ParseState :=
  { inits := [], idles := [], late_resources := [], resources := [],
    resource_struct := [], hardware_tasks := [], software_tasks := [],
    user_imports := [], user_code := [], extern_interrupts := [],
    seen_idents := [], bindings := [] }

/-- The `check_binding` closure of `App::parse`: a binds identifier may occur
at most once across all hardware tasks. -/
def check_ck_binding (bindings : List String) (ident : Ident) :
    Except ParseError (List String) :=
  if bindings.contains ident.name then
    .error ⟨ident.span, "a task has already been bound to this interrupt"⟩
  else .ok (ident.name :: bindings)

/-- The `check_ident` closure of `App::parse`: init, idle and task names
share one namespace without repeats. -/
def check_ck_ident (seen : List String) (ident : Ident) :
    Except ParseError (List String) :=
  if seen.contains ident.name then
    .error ⟨ident.span, "this identifier has already been used"⟩
  else .ok (ident.name :: seen)

/-- The `#[init]` branch of the `App::parse` item loop. -/
def stepInitFn (settings : Settings) (st : ParseState) (span : Nat)
    (a : Attr) (f : ItemFn) : POutcome ParseState :=
  if !st.inits.isEmpty then
    .err ⟨span, "`#[init]` function must appear at most once"⟩
  else
    match check_ck_ident st.seen_idents f.sig.ident with
    | .error e => .err e
    | .ok seen2 =>
      match InitArgs_parse a.payload settings with
      | .error e => .err e
      | .ok args =>
        match Init_parse args f with
        | .error e => .err e
        | .ok ini =>
          .ok { st with inits := st.inits ++ [ini], seen_idents := seen2 }

/-- The `#[idle]` branch of the `App::parse` item loop. -/
def stepIdleFn (settings : Settings) (st : ParseState) (span : Nat)
    (a : Attr) (f : ItemFn) : POutcome ParseState :=
  if !st.idles.isEmpty then
    .err ⟨span, "`#[idle]` function must appear at most once"⟩
  else
    match check_ck_ident st.seen_idents f.sig.ident with
    | .error e => .err e
    | .ok seen2 =>
      match IdleArgs_parse a.payload settings with
      | .error e => .err e
      | .ok args =>
        match Idle_parse args f with
        | .error e => .err e
        | .ok idl =>
          .ok { st with idles := st.idles ++ [idl], seen_idents := seen2 }

/-- The `#[task]` branch of the `App::parse` item loop: routed by `task_args`
to the hardware (Left) or software (Right) path; the hardware path checks
the binding before the identifier. -/
def stepTaskFn (settings : Settings) (st : ParseState) (span : Nat)
    (a : Attr) (f : ItemFn) : POutcome ParseState :=
  if mapContains st.hardware_tasks f.sig.ident
      || mapContains st.software_tasks f.sig.ident then
    .err ⟨span, "this task is defined multiple times"⟩
  else
    match task_args a.payload settings with
    | .error e => .err e
    | .ok (.inl args) =>
      match check_ck_binding st.bindings args.binds with
      | .error e => .err e
      | .ok binds2 =>
        match check_ck_ident st.seen_idents f.sig.ident with
        | .error e => .err e
        | .ok seen2 =>
          match HardwareTask_parse args f with
          | .error e => .err e
          | .ok t =>
            .ok { st with
                  hardware_tasks := st.hardware_tasks ++ [(f.sig.ident, t)],
                  bindings := binds2, seen_idents := seen2 }
    | .ok (.inr args) =>
      match check_ck_ident st.seen_idents f.sig.ident with
      | .error e => .err e
      | .ok seen2 =>
        match SoftwareTask_parse args f with
        | .error e => .err e
        | .ok t =>
          .ok { st with
                software_tasks := st.software_tasks ++ [(f.sig.ident, t)],
                seen_idents := seen2 }

/-- The field loop of the `#[resources]` struct branch: each named field
becomes an early resource (when it carries an `#[init(..)]` attribute, whose
parenthesized content is the initializer) or a late resource; a field name
already present in either table is rejected. -/
def processFields (lr : List (Ident × LateResourceModel))
    (res : List (Ident × ResourceModel)) :
    List FieldModel →
      Except ParseError
        (List (Ident × LateResourceModel) × List (Ident × ResourceModel))
  | [] => .ok (lr, res)
  | f :: rest =>
    if mapContains lr f.ident || mapContains res f.ident then
      .error ⟨f.ident.span, "this resource is listed more than once"⟩
    else
      match f.attrs.findIdx? (fun a => attr_eq a "init") with
      | some pos =>
        match LateResource_parse { f with attrs := f.attrs.eraseIdx pos } with
        | .error e => .error e
        | .ok late =>
          match parseExprParen (f.attrs.getD pos default).payload with
          | .error e => .error e
          | .ok ex =>
            processFields lr (res ++ [(f.ident, { late := late, exprTag := ex })]) rest
      | none =>
        match LateResource_parse f with
        | .error e => .error e
        | .ok late => processFields (lr ++ [(f.ident, late)]) res rest

/-- The `#[resources]` struct branch of the `App::parse` item loop: the
duplicate check is keyed by the struct's identifier, then visibility and
named fields are required and the fields are merged into the shared
late/early tables. -/
def stepResStruct (st : ParseState) (visInherited : Bool) (ident : Ident)
    (fields : SynFields) : POutcome ParseState :=
  if st.resource_struct.contains ident.name then
    .err ⟨ident.span, "`#[resources]` struct must appear at most once"⟩
  else if !visInherited then
    .err ⟨ident.span, "this item must have inherited / private visibility"⟩
  else
    match fields with
    | .named fs =>
      match processFields st.late_resources st.resources fs with
      | .error e => .err e
      | .ok (lr, res) =>
        .ok { st with
              late_resources := lr, resources := res,
              resource_struct := st.resource_struct ++ [ident.name] }
    | _ => .err ⟨ident.span, "this `struct` must have named fields"⟩

/-- The foreign-mod item loop of `App::parse`: foreign functions become
extern-interrupt pool entries when the setting allows (duplicates rejected),
are a misplaced-item error when it does not, and any other foreign item hits
the source's `panic!("not fn")`. -/
def processForeignItems (settings : Settings)
    (ei : List (Ident × ExternInterruptModel)) :
    List ForeignItemM → POutcome (List (Ident × ExternInterruptModel))
  | [] => .ok ei
  | .fn attrs fident :: rest =>
    if settings.parse_extern_interrupt then
      match ExternInterrupt_parse attrs fident with
      | .error e => .err e
      | .ok (ident2, ext) =>
        if mapContains ei ident2 then
          .err ⟨ident2.span, "this extern interrupt is listed more than once"⟩
        else processForeignItems settings (ei ++ [(ident2, ext)]) rest
    else .err ⟨fident.span, "this item must live outside the `#[app]` module"⟩
  | .otherForeign _ :: _ => .panicked "not fn"

/-- One iteration of the `App::parse` item loop: classify the item, dispatch
to the matching branch, and either extend the accumulator, fail with the
first error, or abort on the source's panics. -/
def App_step (settings : Settings) (st : ParseState) :
    SynItem → POutcome ParseState
  | .fn f =>
    match parse_attr f.attrs with
    | .panicked m => .panicked m
    | .err e => .err e
    | .ok (r, restAttrs) =>
      match r with
      | some (.initAttr, a) =>
        stepInitFn settings st f.sig.ident.span a { f with attrs := restAttrs }
      | some (.idleAttr, a) =>
        stepIdleFn settings st f.sig.ident.span a { f with attrs := restAttrs }
      | some (.taskAttr, a) =>
        stepTaskFn settings st f.sig.ident.span a { f with attrs := restAttrs }
      | _ => .err ⟨f.sig.ident.span, "this item must live outside the `#[app]` module"⟩
  | .struct_ attrs visInherited ident fields =>
    match parse_attr attrs with
    | .panicked m => .panicked m
    | .err e => .err e
    | .ok (r, restAttrs) =>
      match r with
      | some (.resources, _) => stepResStruct st visInherited ident fields
      | _ =>
        .ok { st with
              user_code := st.user_code ++ [SynItem.struct_ restAttrs visInherited ident fields] }
  | .foreignMod fitems =>
    match processForeignItems settings st.extern_interrupts fitems with
    | .panicked m => .panicked m
    | .err e => .err e
    | .ok ei => .ok { st with extern_interrupts := ei }
  | .use_ t => .ok { st with user_imports := st.user_imports ++ [t] }
  | .otherItem t => .ok { st with user_code := st.user_code ++ [SynItem.otherItem t] }

/-- The `App::parse` item loop, fail-fast: the first error or panic is the
whole loop's outcome. -/
def App_parse_items (settings : Settings) (st : ParseState) :
    List SynItem → POutcome ParseState
  | [] => .ok st
  | item :: rest =>
    match App_step settings st item with
    | .ok st2 => App_parse_items settings st2 rest
    | .err e => .err e
    | .panicked m => .panicked m

/-- The validated program model (`ast::App`). -/
structure AppModel where
  args : AppArgsModel
  name : Ident
  inits : List InitModel
  idles : List IdleModel
  late_resources : List (Ident × LateResourceModel)
  resources : List (Ident × ResourceModel)
  user_imports : List Nat
  user_code : List SynItem
  hardware_tasks : List (Ident × HardwareTaskModel)
  software_tasks : List (Ident × SoftwareTaskModel)
  extern_interrupts : List (Ident × ExternInterruptModel)

/-- `App::parse`: walk every item of the annotated module once and assemble
the program model, or stop at the first error (or at one of the source's
reachable panics). -/
def App_parse (args : AppArgsModel) (name : Ident) (items : List SynItem)
    (settings : Settings) : POutcome AppModel :=
  match App_parse_items settings initialState items with
  | .ok st =>
    .ok { args := args, name := name, inits := st.inits, idles := st.idles,
          late_resources := st.late_resources, resources := st.resources,
          user_imports := st.user_imports, user_code := st.user_code,
          hardware_tasks := st.hardware_tasks,
          software_tasks := st.software_tasks,
          extern_interrupts := st.extern_interrupts }
  | .err e => .err e
  | .panicked m => .panicked m

/-- The combined init/idle/task identifier namespace of a parse state, in
table order. -/
def stateNames (st : ParseState) : List String :=
  st.inits.map (fun i => i.name.name) ++ st.idles.map (fun i => i.name.name)
    ++ st.hardware_tasks.map (fun p => p.1.name)
    ++ st.software_tasks.map (fun p => p.1.name)

/-- The hardware-task binds identifiers of a parse state, in table order. -/
def stateBinds (st : ParseState) : List String :=
  st.hardware_tasks.map (fun p => p.2.args.binds.name)

/-- The combined init/idle/task identifier namespace of a parsed program. -/
def appNames (app : AppModel) : List String :=
  app.inits.map (fun i => i.name.name) ++ app.idles.map (fun i => i.name.name)
    ++ app.hardware_tasks.map (fun p => p.1.name)
    ++ app.software_tasks.map (fun p => p.1.name)

/-- The hardware-task binds identifiers of a parsed program. -/
def appBinds (app : AppModel) : List String :=
  app.hardware_tasks.map (fun p => p.2.args.binds.name)

/-! ## Concrete fixtures

Small concrete programs used by the scenario theorems below. -/

/-- A bare, argument-free path segment. -/
def plainSeg (name : String) (sp : Nat) : PathSeg := .mk ⟨name, sp⟩ .noArgs

/-- A single-segment path without a leading colon. -/
def plainPath (name : String) (sp : Nat) : SynPath := .mk false [plainSeg name sp]

/-- An outer attribute `#[name]` with an empty token payload. -/
def mkAttr (name : String) : Attr :=
  { styleOuter := true, path := plainPath name 0, payload := .emptyTokens, span := 0 }

/-- An outer attribute `#[name(..)]` with the given token payload. -/
def mkAttrPayload (name : String) (payload : AttrPayload) : Attr :=
  { styleOuter := true, path := plainPath name 0, payload := payload, span := 0 }

/-- The context-parameter type `name::Context`. -/
def ctxTy (name : String) : SynType :=
  .path false (.mk false [plainSeg name 0, plainSeg "Context" 0])

/-- A plain, modifier-free signature `fn name(_: name::Context) <output>`. -/
def plainSig (name : String) (sp : Nat) (output : SynReturnType) : Signature :=
  { constnessSome := false, asyncnessSome := false, abiSome := false,
    unsafetySome := false, generics := { paramsCount := 0, whereClauseSome := false },
    variadicSome := false, ident := ⟨name, sp⟩,
    inputs := [.typed 0 (ctxTy name)], output := output }

/-- A plain function item with the given attributes, name, span and return
type, an empty body and a single `name::Context` parameter. -/
def plainFn (attrs : List Attr) (name : String) (sp : Nat)
    (output : SynReturnType) : ItemFn :=
  { visInherited := true, attrs := attrs, sig := plainSig name sp output, stmts := [] }

/-- A well-formed `#[init]` function item named `name`. -/
def initFnItem (name : String) (sp : Nat) : SynItem :=
  .fn (plainFn [mkAttr "init"] name sp .default)

/-- A well-formed `#[idle]` function item named `name`. -/
def idleFnItem (name : String) (sp : Nat) : SynItem :=
  .fn (plainFn [mkAttr "idle"] name sp .default)

/-- The task-attribute payload `binds = <bname>`. -/
def bindsPayload (bname : String) (bsp : Nat) : AttrPayload :=
  .taskTokens (some ⟨bname, bsp⟩) none none

/-- A well-formed `#[task(binds = bname)]` hardware-task function item. -/
def hwTaskItem (name : String) (sp : Nat) (bname : String) (bsp : Nat) : SynItem :=
  .fn (plainFn [mkAttrPayload "task" (bindsPayload bname bsp)] name sp .default)

/-- A named struct field with no attributes. -/
def plainField (fname : String) (fsp : Nat) : FieldModel :=
  { attrs := [], ident := ⟨fname, fsp⟩, tyTag := 0 }

/-- A private `#[resources]` struct item with the given named fields. -/
def resStructItem (sname : String) (ssp : Nat) (fields : List FieldModel) : SynItem :=
  .struct_ [mkAttr "resources"] true ⟨sname, ssp⟩ (.named fields)

/-- Default settings: the extern-interrupt pool feature is on. -/
def someSettings : Settings := { parse_extern_interrupt := true }

/-- Empty `#[app]` arguments. -/
def noAppArgs : AppArgsModel := { custom := [] }

/-- The program name used by the concrete scenarios. -/
def appName : Ident := ⟨"app", 0⟩

/-- The recognized generator-bound return type
`impl Generator<Yield = (), Return = !>` (all spans zero). -/
def genRet : SynReturnType :=
  .type (.implTrait [.traitBound false false false
    (.mk false [.mk ⟨"Generator", 0⟩ (.angleBracketed
      [.binding ⟨"Yield", 0⟩ (.tuple []), .binding ⟨"Return", 0⟩ .never])])])

/-- A `static mut <name>` item statement with no attributes. -/
def staticMut (name : String) (sp : Nat) : ItemStatic :=
  { attrs := [], ident := ⟨name, sp⟩, mutabilitySome := true, tyTag := 0, exprTag := 0 }

/-- A `static <name>` (immutable) item statement with no attributes. -/
def staticImm (name : String) (sp : Nat) : ItemStatic :=
  { attrs := [], ident := ⟨name, sp⟩, mutabilitySome := false, tyTag := 0, exprTag := 0 }

/-- The inductive invariant of the `App::parse` item loop: at most one init
and one idle, the combined init/idle/task namespace is duplicate-free and
recorded in `seen_idents`, and the hardware-task binds values are
duplicate-free and recorded in `bindings`. -/
structure StInv (st : ParseState) : Prop where
  initsLe : st.inits.length ≤ 1
  idlesLe : st.idles.length ≤ 1
  namesNodup : (stateNames st).Nodup
  namesSeen : ∀ x ∈ stateNames st, x ∈ st.seen_idents
  bindsNodup : (stateBinds st).Nodup
  bindsSeen : ∀ x ∈ stateBinds st, x ∈ st.bindings

/-! ## Theorems -/

theorem contains_true_iff (l : List String) (x : String) :
    l.contains x = true ↔ x ∈ l := List.elem_iff

theorem check_ck_ident_ok {seen seen2 : List String} {i : Ident}
    (h : check_ck_ident seen i = .ok seen2) :
    seen2 = i.name :: seen ∧ i.name ∉ seen := by
  unfold check_ck_ident at h
  split at h
  · cases h
  · next hc =>
    injection h with h2
    exact ⟨h2.symm, fun hm => hc ((contains_true_iff seen i.name).mpr hm)⟩

theorem check_ck_binding_ok {b b2 : List String} {i : Ident}
    (h : check_ck_binding b i = .ok b2) :
    b2 = i.name :: b ∧ i.name ∉ b := by
  unfold check_ck_binding at h
  split at h
  · cases h
  · next hc =>
    injection h with h2
    exact ⟨h2.symm, fun hm => hc ((contains_true_iff b i.name).mpr hm)⟩

theorem Init_parse_name {args : InitArgsModel} {item : ItemFn} {m : InitModel}
    (h : Init_parse args item = .ok m) : m.name = item.sig.ident := by
  unfold Init_parse at h
  repeat' split at h
  all_goals try cases h
  all_goals rfl

theorem Idle_parse_name {args : IdleArgsModel} {item : ItemFn} {m : IdleModel}
    (h : Idle_parse args item = .ok m) : m.name = item.sig.ident := by
  unfold Idle_parse at h
  repeat' split at h
  all_goals try cases h
  all_goals rfl

theorem HardwareTask_parse_args_eq {args : HardwareTaskArgs} {item : ItemFn}
    {t : HardwareTaskModel} (h : HardwareTask_parse args item = .ok t) :
    t.args = args := by
  unfold HardwareTask_parse at h
  repeat' split at h
  all_goals try cases h
  all_goals rfl

theorem perm_ins_1 (a b c d : List String) (n : String) :
    ((a ++ [n]) ++ b ++ c ++ d).Perm (n :: (a ++ b ++ c ++ d)) := by
  have h := @List.perm_middle String n a (b ++ c ++ d)
  simp only [List.append_assoc] at h ⊢
  exact h

theorem perm_ins_2 (a b c d : List String) (n : String) :
    (a ++ (b ++ [n]) ++ c ++ d).Perm (n :: (a ++ b ++ c ++ d)) := by
  have h := @List.perm_middle String n (a ++ b) (c ++ d)
  simp only [List.append_assoc] at h ⊢
  exact h

theorem perm_ins_3 (a b c d : List String) (n : String) :
    (a ++ b ++ (c ++ [n]) ++ d).Perm (n :: (a ++ b ++ c ++ d)) := by
  have h := @List.perm_middle String n (a ++ b ++ c) d
  simp only [List.append_assoc] at h ⊢
  exact h

theorem perm_ins_4 (a b c d : List String) (n : String) :
    (a ++ b ++ c ++ (d ++ [n])).Perm (n :: (a ++ b ++ c ++ d)) := by
  have h := @List.perm_middle String n (a ++ b ++ c ++ d) []
  simp only [List.append_assoc, List.append_nil] at h ⊢
  exact h

theorem stepInitFn_inv {s : Settings} {st st2 : ParseState} {sp : Nat}
    {a : Attr} {f : ItemFn} (hi : StInv st)
    (h : stepInitFn s st sp a f = .ok st2) : StInv st2 := by
  unfold stepInitFn at h
  split at h
  · cases h
  · next hne =>
    have hinits : st.inits = [] := by simpa using hne
    split at h
    · cases h
    · next seen2 hci =>
      split at h
      · cases h
      · next args2 hargs =>
        split at h
        · cases h
        · next ini hini =>
          injection h with h2
          subst h2
          obtain ⟨hseen2, hfresh⟩ := check_ck_ident_ok hci
          have hname := Init_parse_name hini
          have hnames : stateNames { st with inits := st.inits ++ [ini], seen_idents := seen2 }
              = f.sig.ident.name :: stateNames st := by
            simp [stateNames, hinits, hname]
          constructor
          · simp [hinits]
          · exact hi.idlesLe
          · rw [hnames]
            exact List.nodup_cons.mpr ⟨fun hm => hfresh (hi.namesSeen _ hm), hi.namesNodup⟩
          · rw [hnames]
            intro x hx
            show x ∈ seen2
            rw [hseen2]
            rcases List.mem_cons.mp hx with h1 | h1
            · exact h1 ▸ List.mem_cons_self _ _
            · exact List.mem_cons_of_mem _ (hi.namesSeen _ h1)
          · exact hi.bindsNodup
          · exact hi.bindsSeen

theorem stepIdleFn_inv {s : Settings} {st st2 : ParseState} {sp : Nat}
    {a : Attr} {f : ItemFn} (hi : StInv st)
    (h : stepIdleFn s st sp a f = .ok st2) : StInv st2 := by
  unfold stepIdleFn at h
  split at h
  · cases h
  · next hne =>
    have hidles : st.idles = [] := by simpa using hne
    split at h
    · cases h
    · next seen2 hci =>
      split at h
      · cases h
      · next args2 hargs =>
        split at h
        · cases h
        · next idl hidl =>
          injection h with h2
          subst h2
          obtain ⟨hseen2, hfresh⟩ := check_ck_ident_ok hci
          have hname := Idle_parse_name hidl
          have hperm : (stateNames { st with idles := st.idles ++ [idl], seen_idents := seen2 }).Perm
              (f.sig.ident.name :: stateNames st) := by
            have hp := perm_ins_2 (st.inits.map fun i => i.name.name)
              (st.idles.map fun i => i.name.name)
              (st.hardware_tasks.map fun p => p.1.name)
              (st.software_tasks.map fun p => p.1.name) f.sig.ident.name
            simp only [stateNames, List.map_append, List.map_cons, List.map_nil,
              List.append_assoc] at hp ⊢
            rw [hname]
            exact hp
          constructor
          · exact hi.initsLe
          · simp [hidles]
          · exact hperm.nodup_iff.mpr
              (List.nodup_cons.mpr ⟨fun hm => hfresh (hi.namesSeen _ hm), hi.namesNodup⟩)
          · intro x hx
            show x ∈ seen2
            rw [hseen2]
            rcases List.mem_cons.mp (hperm.mem_iff.mp hx) with h1 | h1
            · exact h1 ▸ List.mem_cons_self _ _
            · exact List.mem_cons_of_mem _ (hi.namesSeen _ h1)
          · exact hi.bindsNodup
          · exact hi.bindsSeen

theorem perm_snoc (l : List String) (n : String) : (l ++ [n]).Perm (n :: l) := by
  have h := @List.perm_middle String n l []
  simp only [List.append_nil] at h
  exact h

theorem stepTaskFn_inv {s : Settings} {st st2 : ParseState} {sp : Nat}
    {a : Attr} {f : ItemFn} (hi : StInv st)
    (h : stepTaskFn s st sp a f = .ok st2) : StInv st2 := by
  unfold stepTaskFn at h
  split at h
  · cases h
  · next hdup =>
    split at h
    · cases h
    · -- hardware path
      next args hta =>
      split at h
      · cases h
      · next binds2 hcb =>
        split at h
        · cases h
        · next seen2 hci =>
          split at h
          · cases h
          · next t ht =>
            injection h with h2
            subst h2
            obtain ⟨hb2, hbfresh⟩ := check_ck_binding_ok hcb
            obtain ⟨hs2, hsfresh⟩ := check_ck_ident_ok hci
            have htargs := HardwareTask_parse_args_eq ht
            have hperm : (stateNames { st with
                hardware_tasks := st.hardware_tasks ++ [(f.sig.ident, t)],
                bindings := binds2, seen_idents := seen2 }).Perm
                (f.sig.ident.name :: stateNames st) := by
              have hp := perm_ins_3 (st.inits.map fun i => i.name.name)
                (st.idles.map fun i => i.name.name)
                (st.hardware_tasks.map fun p => p.1.name)
                (st.software_tasks.map fun p => p.1.name) f.sig.ident.name
              simp only [stateNames, List.map_append, List.map_cons, List.map_nil,
                List.append_assoc] at hp ⊢
              exact hp
            have hbindsEq : stateBinds { st with
                hardware_tasks := st.hardware_tasks ++ [(f.sig.ident, t)],
                bindings := binds2, seen_idents := seen2 }
                = stateBinds st ++ [args.binds.name] := by
              simp [stateBinds, htargs]
            constructor
            · exact hi.initsLe
            · exact hi.idlesLe
            · exact hperm.nodup_iff.mpr
                (List.nodup_cons.mpr ⟨fun hm => hsfresh (hi.namesSeen _ hm), hi.namesNodup⟩)
            · intro x hx
              show x ∈ seen2
              rw [hs2]
              rcases List.mem_cons.mp (hperm.mem_iff.mp hx) with h1 | h1
              · exact h1 ▸ List.mem_cons_self _ _
              · exact List.mem_cons_of_mem _ (hi.namesSeen _ h1)
            · rw [hbindsEq]
              exact (perm_snoc _ _).nodup_iff.mpr
                (List.nodup_cons.mpr ⟨fun hm => hbfresh (hi.bindsSeen _ hm), hi.bindsNodup⟩)
            · intro x hx
              show x ∈ binds2
              rw [hbindsEq] at hx
              rw [hb2]
              rcases List.mem_cons.mp ((perm_snoc _ _).mem_iff.mp hx) with h1 | h1
              · exact h1 ▸ List.mem_cons_self _ _
              · exact List.mem_cons_of_mem _ (hi.bindsSeen _ h1)
    · -- software path
      next args hta =>
      split at h
      · cases h
      · next seen2 hci =>
        split at h
        · cases h
        · next t ht =>
          injection h with h2
          subst h2
          obtain ⟨hs2, hsfresh⟩ := check_ck_ident_ok hci
          have hperm : (stateNames { st with
              software_tasks := st.software_tasks ++ [(f.sig.ident, t)],
              seen_idents := seen2 }).Perm
              (f.sig.ident.name :: stateNames st) := by
            have hp := perm_ins_4 (st.inits.map fun i => i.name.name)
              (st.idles.map fun i => i.name.name)
              (st.hardware_tasks.map fun p => p.1.name)
              (st.software_tasks.map fun p => p.1.name) f.sig.ident.name
            simp only [stateNames, List.map_append, List.map_cons, List.map_nil,
              List.append_assoc] at hp ⊢
            exact hp
          constructor
          · exact hi.initsLe
          · exact hi.idlesLe
          · exact hperm.nodup_iff.mpr
              (List.nodup_cons.mpr ⟨fun hm => hsfresh (hi.namesSeen _ hm), hi.namesNodup⟩)
          · intro x hx
            show x ∈ seen2
            rw [hs2]
            rcases List.mem_cons.mp (hperm.mem_iff.mp hx) with h1 | h1
            · exact h1 ▸ List.mem_cons_self _ _
            · exact List.mem_cons_of_mem _ (hi.namesSeen _ h1)
          · exact hi.bindsNodup
          · exact hi.bindsSeen

theorem stepResStruct_inv {st st2 : ParseState} {vis : Bool} {ident : Ident}
    {fields : SynFields} (hi : StInv st)
    (h : stepResStruct st vis ident fields = .ok st2) : StInv st2 := by
  unfold stepResStruct at h
  split at h
  · cases h
  · split at h
    · cases h
    · split at h
      · split at h
        · cases h
        · next pr hpf =>
          injection h with h2
          subst h2
          exact ⟨hi.initsLe, hi.idlesLe, hi.namesNodup, hi.namesSeen,
            hi.bindsNodup, hi.bindsSeen⟩
      · cases h

theorem App_step_inv {s : Settings} {st st2 : ParseState} {item : SynItem}
    (hi : StInv st) (h : App_step s st item = .ok st2) : StInv st2 := by
  cases item with
  | fn f =>
    simp only [App_step] at h
    split at h
    · cases h
    · cases h
    · split at h
      · exact stepInitFn_inv hi h
      · exact stepIdleFn_inv hi h
      · exact stepTaskFn_inv hi h
      all_goals cases h
  | struct_ attrs vis ident fields =>
    simp only [App_step] at h
    split at h
    · cases h
    · cases h
    · split at h
      · exact stepResStruct_inv hi h
      · injection h with h2
        subst h2
        exact ⟨hi.initsLe, hi.idlesLe, hi.namesNodup, hi.namesSeen,
          hi.bindsNodup, hi.bindsSeen⟩
  | foreignMod fitems =>
    simp only [App_step] at h
    split at h
    · cases h
    · cases h
    · injection h with h2
      subst h2
      exact ⟨hi.initsLe, hi.idlesLe, hi.namesNodup, hi.namesSeen,
        hi.bindsNodup, hi.bindsSeen⟩
  | use_ t =>
    simp only [App_step] at h
    injection h with h2
    subst h2
    exact ⟨hi.initsLe, hi.idlesLe, hi.namesNodup, hi.namesSeen,
      hi.bindsNodup, hi.bindsSeen⟩
  | otherItem t =>
    simp only [App_step] at h
    injection h with h2
    subst h2
    exact ⟨hi.initsLe, hi.idlesLe, hi.namesNodup, hi.namesSeen,
      hi.bindsNodup, hi.bindsSeen⟩

theorem App_parse_items_inv {s : Settings} :
    ∀ {items : List SynItem} {st st2 : ParseState},
      StInv st → App_parse_items s st items = .ok st2 → StInv st2 := by
  intro items
  induction items with
  | nil =>
    intro st st2 hi h
    simp only [App_parse_items] at h
    injection h with h2
    subst h2
    exact hi
  | cons item rest ih =>
    intro st st2 hi h
    simp only [App_parse_items] at h
    split at h
    · next stm hstep => exact ih (App_step_inv hi hstep) h
    · cases h
    · cases h

theorem initialState_inv : StInv initialState := by
  constructor <;> simp [stateNames, stateBinds, initialState]

theorem path_is_generator_iff (p : SynPath) :
    path_is_generator p = true ↔
      ∃ lc g y r, p = SynPath.mk lc [PathSeg.mk g (.angleBracketed
          [.binding y (.tuple []), .binding r .never])]
        ∧ g.name = "Generator" ∧ y.name = "Yield" ∧ r.name = "Return" := by
  constructor
  · intro h
    rcases p with ⟨lc, segs⟩
    rcases segs with _ | ⟨seg, segtail⟩
    · simp [path_is_generator, SynPath.segments] at h
    rcases segtail with _ | ⟨s2, s3⟩
    swap
    · simp [path_is_generator, SynPath.segments] at h
    rcases seg with ⟨g, args⟩
    simp only [path_is_generator, SynPath.segments, Bool.and_eq_true, beq_iff_eq] at h
    obtain ⟨hg, hargs⟩ := h
    rcases args with _ | gargs | _
    · simp at hargs
    swap
    · simp at hargs
    rcases gargs with _ | ⟨g0, _ | ⟨g1, grest⟩⟩
    · simp at hargs
    · simp at hargs
    rcases grest with _ | ⟨g2, g3⟩
    swap
    · simp at hargs
    rcases g0 with ⟨y, yty⟩ | t0
    swap
    · simp at hargs
    rcases g1 with ⟨r, rty⟩ | t1
    swap
    · simp at hargs
    simp only [Bool.and_eq_true, beq_iff_eq] at hargs
    obtain ⟨⟨hy, hyty⟩, hr, hrty⟩ := hargs
    rcases yty with _ | yel | _ | _ | _ <;> try simp at hyty
    rcases rty with _ | _ | _ | _ | _ <;> try simp at hrty
    · have hyel : yel = [] := by simpa using hyty
      subst hyel
      exact ⟨lc, g, y, r, rfl, hg, hy, hr⟩
  · rintro ⟨lc, g, y, r, rfl, hg, hy, hr⟩
    simp [path_is_generator, SynPath.segments, hg, hy, hr]

theorem hw_return_check_iff (ret : SynReturnType) :
    (type_is_unit ret || type_is_generator ret) = true ↔
      (ret = .default ∨ ret = .type (.tuple [])
        ∨ ∃ lc g y r, ret = SynReturnType.type (.implTrait [.traitBound false false false
            (SynPath.mk lc [PathSeg.mk g (.angleBracketed
              [.binding y (.tuple []), .binding r .never])])])
          ∧ g.name = "Generator" ∧ y.name = "Yield" ∧ r.name = "Return") := by
  constructor
  · intro h
    rcases ret with _ | ty
    · exact Or.inl rfl
    rcases ty with _ | elems | ⟨q, p⟩ | bounds | t
    · simp [type_is_unit, type_is_generator] at h
    · simp only [type_is_unit, type_is_generator, Bool.or_false] at h
      have helems : elems = [] := by simpa using h
      subst helems
      exact Or.inr (Or.inl rfl)
    · simp [type_is_unit, type_is_generator] at h
    · simp only [type_is_unit, Bool.false_or] at h
      rcases bounds with _ | ⟨tb, tail⟩
      · simp [type_is_generator] at h
      rcases tail with _ | ⟨tb2, tail2⟩
      swap
      · simp [type_is_generator] at h
      rcases tb with ⟨paren, modif, lts, p⟩ | t
      swap
      · simp [type_is_generator] at h
      simp only [type_is_generator, Bool.and_eq_true, Bool.not_eq_true'] at h
      obtain ⟨⟨⟨hp, hparen⟩, hmodif⟩, hlts⟩ := h
      subst hparen
      subst hmodif
      subst hlts
      obtain ⟨lc, g, y, r, rfl, hg, hy, hr⟩ := (path_is_generator_iff p).mp hp
      exact Or.inr (Or.inr ⟨lc, g, y, r, rfl, hg, hy, hr⟩)
    · simp [type_is_unit, type_is_generator] at h
  · rintro (rfl | rfl | ⟨lc, g, y, r, rfl, hg, hy, hr⟩)
    · rfl
    · rfl
    · have hpg : path_is_generator (SynPath.mk lc [PathSeg.mk g (.angleBracketed
          [.binding y (.tuple []), .binding r .never])]) = true :=
        (path_is_generator_iff _).mpr ⟨lc, g, y, r, rfl, hg, hy, hr⟩
      simp [type_is_generator, hpg]

theorem extract_locals_go_split :
    ∀ (stmts : List SynStmt) (seen : List String) (locals l : List ItemStatic)
      (b : List SynStmt),
      extract_locals_go seen locals stmts = .ok (l, b) →
      ∃ l2, l = locals ++ l2 ∧ stmts = l2.map SynStmt.itemStatic ++ b
        ∧ ∀ s ∈ l2, s.mutabilitySome = true := by
  intro stmts
  induction stmts with
  | nil =>
    intro seen locals l b h
    unfold extract_locals_go at h
    injection h with h2
    injection h2 with h3 h4
    subst h3
    subst h4
    exact ⟨[], by simp, by simp, by simp⟩
  | cons stmt rest ih =>
    intro seen locals l b h
    unfold extract_locals_go at h
    split at h
    · next s =>
      split at h
      · next hmut =>
        split at h
        · cases h
        · obtain ⟨l2, hl, hs, hm⟩ := ih _ _ _ _ h
          refine ⟨s :: l2, ?_, ?_, ?_⟩
          · rw [hl]
            simp
          · simp [hs]
          · intro x hx
            rcases List.mem_cons.mp hx with h1 | h1
            · exact h1 ▸ hmut
            · exact hm x h1
      · injection h with h2
        injection h2 with h3 h4
        subst h3
        subst h4
        exact ⟨[], by simp, by simp, by simp⟩
    · next t =>
      injection h with h2
      injection h2 with h3 h4
      subst h3
      subst h4
      exact ⟨[], by simp, by simp, by simp⟩

/-- C1: every program accepted by `App::parse` has at most one init, at most
one idle, and pairwise-distinct init/idle/task identifiers; a second
`#[init]` or `#[idle]`, and an identifier reuse across the shared namespace,
abort the parse with a redefinition error. -/
theorem C1_single_init_idle_distinct_idents :
    (∀ (args : AppArgsModel) (name : Ident) (items : List SynItem)
        (settings : Settings) (app : AppModel),
        App_parse args name items settings = .ok app →
          app.inits.length ≤ 1 ∧ app.idles.length ≤ 1 ∧ (appNames app).Nodup)
    ∧ App_parse noAppArgs appName [initFnItem "init" 1, initFnItem "init" 2]
        someSettings = .err ⟨2, "`#[init]` function must appear at most once"⟩
    ∧ App_parse noAppArgs appName [idleFnItem "idle" 1, idleFnItem "idle" 2]
        someSettings = .err ⟨2, "`#[idle]` function must appear at most once"⟩
    ∧ App_parse noAppArgs appName [initFnItem "foo" 1, hwTaskItem "foo" 2 "EXTI1" 3]
        someSettings = .err ⟨2, "this identifier has already been used"⟩ := by
  refine ⟨?_, rfl, rfl, rfl⟩
  intro args name items settings app h
  unfold App_parse at h
  split at h
  · next st hitems =>
    injection h with h2
    subst h2
    have hinv := App_parse_items_inv initialState_inv hitems
    exact ⟨hinv.initsLe, hinv.idlesLe, hinv.namesNodup⟩
  · cases h
  · cases h

/-- C3: two hardware tasks with the same `binds` interrupt make `App::parse`
fail with the binding-redefinition error at the second `binds` span, and
every accepted program has pairwise-distinct `binds` values. -/
theorem C3_distinct_bindings :
    (∀ (args : AppArgsModel) (name : Ident) (items : List SynItem)
        (settings : Settings) (app : AppModel),
        App_parse args name items settings = .ok app → (appBinds app).Nodup)
    ∧ App_parse noAppArgs appName
        [hwTaskItem "foo" 1 "EXTI0" 10, hwTaskItem "bar" 2 "EXTI0" 20]
        someSettings = .err ⟨20, "a task has already been bound to this interrupt"⟩ := by
  refine ⟨?_, rfl⟩
  intro args name items settings app h
  unfold App_parse at h
  split at h
  · next st hitems =>
    injection h with h2
    subst h2
    exact (App_parse_items_inv initialState_inv hitems).bindsNodup
  · cases h
  · cases h

/-- C2 counterexample: the never type satisfies `type_is_bottom`, yet it
fails the return-type check `type_is_unit || type_is_generator` that
`HardwareTask::parse` actually applies, and an otherwise-valid task declared
`-> !` is rejected with the signature error. -/
theorem C2_counterexample :
    type_is_bottom (.type .never) = true
    ∧ (type_is_unit (.type .never) || type_is_generator (.type .never)) = false
    ∧ HardwareTask_parse { binds := ⟨"EXTI0", 0⟩, priority := 1 }
        (plainFn [] "foo" 5 (.type .never))
      = .error ⟨5, taskSigMsg "foo"⟩ := ⟨rfl, rfl, rfl⟩

/-- C2 (amended): a task is accepted by `HardwareTask::parse` only if its
return type passes `type_is_unit || type_is_generator`, and that check holds
exactly for the elided/unit return and the recognized
`impl Generator<Yield = (), Return = !>` bound — the never type, like every
other shape, fails it. -/
theorem C2_return_type_check :
    (∀ (args : HardwareTaskArgs) (item : ItemFn) (t : HardwareTaskModel),
        HardwareTask_parse args item = .ok t →
          (type_is_unit item.sig.output || type_is_generator item.sig.output) = true)
    ∧ (∀ ret : SynReturnType,
        (type_is_unit ret || type_is_generator ret) = true ↔
          (ret = .default ∨ ret = .type (.tuple [])
            ∨ ∃ lc g y r, ret = SynReturnType.type (.implTrait [.traitBound false false false
                (SynPath.mk lc [PathSeg.mk g (.angleBracketed
                  [.binding y (.tuple []), .binding r .never])])])
              ∧ g.name = "Generator" ∧ y.name = "Yield" ∧ r.name = "Return"))
    ∧ (type_is_unit .default = true ∧ type_is_unit (.type (.tuple [])) = true
       ∧ (type_is_unit genRet || type_is_generator genRet) = true
       ∧ (type_is_unit (.type .never) || type_is_generator (.type .never)) = false) := by
  refine ⟨?_, hw_return_check_iff, rfl, rfl, rfl, rfl⟩
  intro args item t h
  unfold HardwareTask_parse at h
  split at h
  · cases h
  · split at h
    · next hsig =>
        simp only [Bool.and_eq_true] at hsig
        exact hsig.2
    · cases h

/-- C7: a task function literally named `init` or `idle` is rejected by the
task entity parser with the reserved-name error, whatever the rest of the
declaration looks like. -/
theorem C7_reserved_names :
    (∀ (args : HardwareTaskArgs) (item : ItemFn), item.sig.ident.name = "init" →
        HardwareTask_parse args item
          = .error ⟨item.sig.ident.span, "tasks cannot be named `init` or `idle`"⟩)
    ∧ (∀ (args : HardwareTaskArgs) (item : ItemFn), item.sig.ident.name = "idle" →
        HardwareTask_parse args item
          = .error ⟨item.sig.ident.span, "tasks cannot be named `init` or `idle`"⟩)
    ∧ HardwareTask_parse { binds := ⟨"EXTI0", 0⟩, priority := 1 }
        (plainFn [] "init" 5 .default)
        = .error ⟨5, "tasks cannot be named `init` or `idle`"⟩
    ∧ HardwareTask_parse { binds := ⟨"EXTI0", 0⟩, priority := 1 }
        (plainFn [] "idle" 6 .default)
        = .error ⟨6, "tasks cannot be named `init` or `idle`"⟩ := by
  refine ⟨?_, ?_, rfl, rfl⟩
  · intro args item h
    simp [HardwareTask_parse, h]
  · intro args item h
    simp [HardwareTask_parse, h]

/-- C4: `parse_resources` maps bare identifiers to `Exclusive` and
non-mutable references to `Shared` (`[a, &b, c]` gives exactly that mapping);
multi-segment, leading-colon and generic-argument paths are rejected, as are
repeated identifiers. -/
theorem C4_parse_resources :
    parse_resources [.pathE 1 (plainPath "a" 11),
        .referenceE 2 false (.pathE 3 (plainPath "b" 12)), .pathE 4 (plainPath "c" 13)]
      = .ok [(⟨"a", 11⟩, .Exclusive), (⟨"b", 12⟩, .Shared), (⟨"c", 13⟩, .Exclusive)]
    ∧ (∀ (nm : String) (sp esp : Nat),
        parse_resources [.pathE esp (plainPath nm sp)] = .ok [(⟨nm, sp⟩, .Exclusive)])
    ∧ (∀ (nm : String) (sp esp isp : Nat),
        parse_resources [.referenceE esp false (.pathE isp (plainPath nm sp))]
          = .ok [(⟨nm, sp⟩, .Shared)])
    ∧ (∀ (sp : Nat) (lc : Bool) (s1 s2 : PathSeg) (segs : List PathSeg) (rest : List RExpr),
        parse_resources (.pathE sp (.mk lc (s1 :: s2 :: segs)) :: rest)
          = .error ⟨(SynPath.mk lc (s1 :: s2 :: segs)).spanOf,
              "resource must be an identifier, not a path"⟩)
    ∧ (∀ (sp : Nat) (seg : PathSeg) (rest : List RExpr),
        parse_resources (.pathE sp (.mk true [seg]) :: rest)
          = .error ⟨(SynPath.mk true [seg]).spanOf,
              "resource must be an identifier, not a path"⟩)
    ∧ (∀ (sp : Nat) (lc : Bool) (i : Ident) (gargs : List GenericArgument) (rest : List RExpr),
        parse_resources (.pathE sp (.mk lc [.mk i (.angleBracketed gargs)]) :: rest)
          = .error ⟨(SynPath.mk lc [PathSeg.mk i (.angleBracketed gargs)]).spanOf,
              "resource must be an identifier, not a path"⟩)
    ∧ (∀ (nm : String) (s1 s2 e1 e2 : Nat) (rest : List RExpr),
        parse_resources (.pathE e1 (plainPath nm s1) :: .pathE e2 (plainPath nm s2) :: rest)
          = .error ⟨s2, "resource appears more than once in list"⟩) := by
  refine ⟨rfl, fun nm sp esp => rfl, fun nm sp esp isp => rfl, ?_, ?_, ?_, ?_⟩
  · intro sp lc s1 s2 segs rest
    cases lc <;> rfl
  · intro sp seg rest
    rfl
  · intro sp lc i gargs rest
    cases lc <;> rfl
  · intro nm s1 s2 e1 e2 rest
    simp [parse_resources, parse_resources_go, mapContains, plainPath, plainSeg,
      SynPath.leadingColon, SynPath.segments, PathSeg.arguments, PathSeg.ident,
      PathArgs.isNone]

/-- C5: `extract_locals` consumes exactly the longest leading run of
`static mut` items as locals (rejecting a repeated name), stops at the first
other statement — an immutable `static` included — and leaves the rest of the
body in order. -/
theorem C5_extract_locals :
    extract_locals [.itemStatic (staticMut "X" 1), .otherStmt 7,
        .itemStatic (staticMut "Z" 2)]
      = .ok ([staticMut "X" 1], [.otherStmt 7, .itemStatic (staticMut "Z" 2)])
    ∧ (∀ (a : List Attr) (i : Ident) (ty ex : Nat) (rest : List SynStmt),
        extract_locals (.itemStatic ⟨a, i, false, ty, ex⟩ :: rest)
          = .ok ([], .itemStatic ⟨a, i, false, ty, ex⟩ :: rest))
    ∧ (∀ (stmts : List SynStmt) (l : List ItemStatic) (b : List SynStmt),
        extract_locals stmts = .ok (l, b) →
          stmts = l.map SynStmt.itemStatic ++ b ∧ ∀ s ∈ l, s.mutabilitySome = true)
    ∧ (∀ (a1 a2 : List Attr) (nm : String) (sp1 sp2 t1 e1 t2 e2 : Nat)
          (rest : List SynStmt),
        extract_locals (.itemStatic ⟨a1, ⟨nm, sp1⟩, true, t1, e1⟩
            :: .itemStatic ⟨a2, ⟨nm, sp2⟩, true, t2, e2⟩ :: rest)
          = .error ⟨sp2, "this local `static` appears more than once"⟩) := by
  refine ⟨rfl, fun a i ty ex rest => rfl, ?_, ?_⟩
  · intro stmts l b h
    obtain ⟨l2, hl, hs, hm⟩ := extract_locals_go_split stmts [] [] l b h
    rw [List.nil_append] at hl
    subst hl
    exact ⟨hs, hm⟩
  · intro a1 a2 nm sp1 sp2 t1 e1 t2 e2 rest
    simp [extract_locals, extract_locals_go, List.contains]

/-- C6: `AppArgs::parse` stores each `key = value` pair as a custom argument
(path, boolean, or unsuffixed integer); suffixed integers and other literal
kinds are rejected, a repeated key is a duplicate-argument error, and
`peripherals = true` yields exactly `peripherals -> Bool(true)`. -/
theorem C6_app_args :
    AppArgs_parse [(⟨"peripherals", 1⟩, .boolV true)]
      = .ok { custom := [(⟨"peripherals", 1⟩, .boolVal true)] }
    ∧ (∀ (k : Ident) (p : SynPath),
        AppArgs_parse [(k, .pathV p)] = .ok { custom := [(k, .Path p)] })
    ∧ (∀ (k : Ident) (b : Bool),
        AppArgs_parse [(k, .boolV b)] = .ok { custom := [(k, .boolVal b)] })
    ∧ (∀ (k : Ident) (d : String),
        AppArgs_parse [(k, .intV false d)] = .ok { custom := [(k, .UInt d)] })
    ∧ (∀ (k : Ident) (d : String) (rest : List (Ident × ArgValue)),
        AppArgs_parse ((k, .intV true d) :: rest)
          = .error ⟨k.span, "integer must be unsuffixed"⟩)
    ∧ (∀ (k : Ident) (t : Nat) (rest : List (Ident × ArgValue)),
        AppArgs_parse ((k, .otherLitV t) :: rest)
          = .error ⟨k.span, "argument has unexpected value"⟩)
    ∧ (∀ (nm : String) (s1 s2 : Nat) (p : SynPath) (v : ArgValue)
          (rest : List (Ident × ArgValue)),
        AppArgs_parse ((⟨nm, s1⟩, .pathV p) :: (⟨nm, s2⟩, v) :: rest)
          = .error ⟨s2, "argument appears more than once"⟩) := by
  refine ⟨rfl, fun k p => rfl, fun k b => rfl, fun k d => rfl,
    fun k d rest => rfl, fun k t rest => rfl, ?_⟩
  intro nm s1 s2 p v rest
  simp [AppArgs_parse, AppArgs_parse_go, mapContains]

/-- C9: with one core a present `#[shared]` attribute is an error and with
more cores it is removed and reported; `parse_core` accepts exactly the
unsuffixed literals below the core count (`core = 3` passes under 4 cores,
`core = 4` does not). -/
theorem C9_core_gating :
    (∀ (attrs : List Attr) (pos : Nat),
        attrs.findIdx? (fun a => attr_eq a "shared") = some pos →
        extract_shared attrs 1
          = .error ⟨(attrs.getD pos default).span,
              "`#[shared]` can only be used in multi-core mode"⟩)
    ∧ (∀ (attrs : List Attr) (cores pos : Nat), 1 < cores →
        attrs.findIdx? (fun a => attr_eq a "shared") = some pos →
        extract_shared attrs cores = .ok (true, attrs.eraseIdx pos))
    ∧ (∀ (v : Nat) (suf : Bool) (sp cores : Nat), cores < 256 →
        (parse_core ⟨v, suf, sp⟩ cores = .ok v ↔ (suf = false ∧ v < cores)))
    ∧ parse_core ⟨4, false, 7⟩ 4 = .error ⟨7, coreRangeMsg 4⟩
    ∧ parse_core ⟨3, false, 8⟩ 4 = .ok 3 := by
  refine ⟨?_, ?_, ?_, rfl, rfl⟩
  · intro attrs pos h
    unfold extract_shared
    rw [h]
    rfl
  · intro attrs cores pos hc h
    unfold extract_shared
    rw [h]
    have hne : (cores == 1) = false := by
      simp
      omega
    simp [hne]
  · intro v suf sp cores hc
    constructor
    · intro h
      unfold parse_core at h
      split at h
      · cases h
      · next hsuf =>
        split at h
        · next hcond =>
          simp only [decide_eq_true_eq, Bool.and_eq_true] at hcond
          exact ⟨by simpa using hsuf, hcond.2⟩
        · cases h
    · rintro ⟨hsuf, hv⟩
      subst hsuf
      have h256 : v < 256 := by omega
      simp [parse_core, hv, h256]

/-- C8: `App::parse` can abort by panic instead of returning a structured
error: a foreign block containing a non-function item reaches the source's
`panic!("not fn")`, and two recognized attributes on one item reach
`parse_attr`'s `unimplemented!()`. -/
theorem C8_panic_reachable :
    App_parse noAppArgs appName [.foreignMod [.otherForeign 0]] someSettings
      = .panicked "not fn"
    ∧ parse_attr [mkAttr "init", mkAttr "task"] = .panicked "not implemented" :=
  ⟨rfl, rfl⟩

/-- C10: the "`#[resources]` struct must appear at most once" rejection is
keyed by the struct identifier — a repeated name aborts, two distinct names
are accepted with their fields merged into the shared tables, and a field
name repeated across the two structs fails as a duplicate resource. -/
theorem C10_resources_struct_keyed_by_name :
    (∀ (settings : Settings) (st : ParseState) (vis : Bool) (ident : Ident)
        (fields : SynFields),
        st.resource_struct.contains ident.name = true →
        App_step settings st (.struct_ [mkAttr "resources"] vis ident fields)
          = .err ⟨ident.span, "`#[resources]` struct must appear at most once"⟩)
    ∧ (∃ app, App_parse noAppArgs appName
          [resStructItem "S" 1 [plainField "a" 11], resStructItem "T" 2 [plainField "b" 12]]
          someSettings = .ok app
        ∧ app.late_resources.map (fun p => p.1.name) = ["a", "b"]
        ∧ app.resources = [])
    ∧ App_parse noAppArgs appName
        [resStructItem "S" 1 [plainField "a" 11], resStructItem "S" 2 [plainField "b" 12]]
        someSettings = .err ⟨2, "`#[resources]` struct must appear at most once"⟩
    ∧ App_parse noAppArgs appName
        [resStructItem "S" 1 [plainField "a" 11], resStructItem "T" 2 [plainField "a" 12]]
        someSettings = .err ⟨12, "this resource is listed more than once"⟩ := by
  refine ⟨?_, ⟨_, rfl, rfl, rfl⟩, rfl, rfl⟩
  intro settings st vis ident fields h
  have hpa : parse_attr [mkAttr "resources"]
      = .ok (some (.resources, mkAttr "resources"), []) := rfl
  simp only [App_step, hpa]
  unfold stepResStruct
  rw [h]
  simp
